import Mathlib

/-!
Verification of the voice-assistant repository (llama.py, Guardian.py, tools.py).

The Python sources are shallowly embedded below.  Strings are modelled as
`List Char`; backend (ollama) calls are modelled by their observable outcome,
an `Option (List Char)` where `none` stands for any failure (timeout,
exception) and `some text` for the extracted response text.  JSON values are
modelled by the inductive type `Json`.
-/

namespace LlamaAgent

/-- Python string containment and `str.replace` helpers: prefix test on
character lists (`w` a prefix of `s`). -/
def isPrefixB : List Char → List Char → Bool
  | [], _ => true
  | _ :: _, [] => false
  | a :: w, b :: s => a == b && isPrefixB w s

/-- Python `w in s` substring containment on character lists. -/
def containsB (w : List Char) : List Char → Bool
  | [] => isPrefixB w []
  | c :: t => isPrefixB w (c :: t) || containsB w t

/-- Characters stripped by Python `str.strip()` (ASCII whitespace). -/
def isWSChar (c : Char) : Bool :=
  c == ' ' || c == '\t' || c == '\n' || c == '\r' || c == '\x0b' || c == '\x0c'

/-- Python `str.strip()`: drop ASCII whitespace at both ends. -/
def stripWS (s : List Char) : List Char :=
  ((s.dropWhile isWSChar).reverse.dropWhile isWSChar).reverse

/-- Uppercase then nothing else: model of `.strip().upper()` applied to the
extracted backend text, as in `classify_user_input` / `classify`. -/
def stripUpper (s : List Char) : List Char :=
  (stripWS s).map Char.toUpper

/-- `llama.py classify_user_input` (lines 124-147): the textual parsing of the
backend response.  Input `none` models any backend failure (the `except`
branch); `some content` models a successful call whose extracted text is
`content`.  Checks `'TOOL' in content` first, then `'COMPLEX' in content`,
else returns SIMPLE. -/
def llamaClassify (backend : Option (List Char)) : String :=
  match backend with
  | none => "SIMPLE"
  | some content =>
    let c := stripUpper content
    if containsB ("TOOL".toList) c then "TOOL"
    else if containsB ("COMPLEX".toList) c then "COMPLEX"
    else "SIMPLE"

/-- `Guardian.py classify` (lines 124-148): returns the stripped uppercased
response only when it is exactly one of TOOL, SIMPLE, COMPLEX; otherwise
(including any backend failure) returns SIMPLE. -/
def guardianClassify (backend : Option (List Char)) : String :=
  match backend with
  | none => "SIMPLE"
  | some content =>
    let r := stripUpper content
    if r = ("TOOL".toList) then "TOOL"
    else if r = ("SIMPLE".toList) then "SIMPLE"
    else if r = ("COMPLEX".toList) then "COMPLEX"
    else "SIMPLE"

/-- A chat message, as the dicts `\x7b'role': ..., 'content': ...\x7d` used in
both sources. -/
structure Msg where
  role : String
  content : String
deriving DecidableEq, Repr

/-- Observable outcome of one `get_response` / `chat` call: the history after
the call, the context submitted to the backend (the slice
`history[-max_history:]`, system message excluded), and the returned reply. -/
structure RespResult where
  history : List Msg
  submitted : List Msg
  reply : String
deriving DecidableEq, Repr

/-- Python slice `l[-M:]` for a nonnegative `M`; note `l[-0:]` is the whole
list, since `-0 == 0` in Python. -/
def pySliceLast (l : List Msg) (M : Nat) : List Msg :=
  if M = 0 then l else l.drop (l.length - M)

/-- `llama.py get_response` (lines 286-299).  The user message is appended
first; the submitted context is `conversation_history[-max_history:]`;
`backend = none` models `ollama.chat` raising, in which case the `except`
branch returns the error sentence without appending any assistant message.
On success the stripped reply is appended (even when empty), and an empty
reply is substituted in the return value only. -/
def llamaGetResponse (hist : List Msg) (input : String) (M : Nat)
    (backend : Option (List Char)) : RespResult :=
  let hist1 := hist ++ [⟨"user", input⟩]
  let submitted := pySliceLast hist1 M
  match backend with
  | none => ⟨hist1, submitted, "I encountered an error while fetching a response."⟩
  | some resp =>
    let a := String.mk (stripWS resp)
    ⟨hist1 ++ [⟨"assistant", a⟩], submitted,
      if a = "" then "I'm sorry, I didn't get a response." else a⟩

/-- `Guardian.py chat` (lines 241-255): same structure as `get_response` with
Guardian's fallback sentences. -/
def guardianChat (hist : List Msg) (input : String) (M : Nat)
    (backend : Option (List Char)) : RespResult :=
  let hist1 := hist ++ [⟨"user", input⟩]
  let submitted := pySliceLast hist1 M
  match backend with
  | none => ⟨hist1, submitted, "I encountered an error while thinking."⟩
  | some resp =>
    let a := String.mk (stripWS resp)
    ⟨hist1 ++ [⟨"assistant", a⟩], submitted,
      if a = "" then "No response." else a⟩

/-- Role expected at a given position when History alternates user/assistant
starting with user: the turn flag `b` is `true` on user turns. -/
def altFrom (b : Bool) : List Msg → Bool
  | [] => true
  | m :: t => (m.role == (if b then "user" else "assistant")) && altFrom (!b) t

/-- History alternates user/assistant starting with user. -/
def isAltUA (l : List Msg) : Bool := altFrom true l

/-- JSON values, as produced by `json.loads`. -/
inductive Json where
  | null
  | bool (b : Bool)
  | num (n : Int)
  | str (s : String)
  | arr (elems : List Json)
  | obj (fields : List (String × Json))
deriving Repr, BEq

/-- Python `dict.get` on the field list of a JSON object (later duplicate keys
override earlier ones, as in `json.loads`). -/
def pyDictGet (fields : List (String × Json)) (k : String) : Option Json :=
  (fields.reverse.find? (fun kv => kv.1 = k)).map (fun kv => kv.2)

/-- Python truthiness of a JSON value (`not tool`, `arguments or \x7b\x7d`). -/
def jsonTruthy : Json → Bool
  | Json.null => false
  | Json.bool b => b
  | Json.num n => n != 0
  | Json.str s => s ≠ ""
  | Json.arr es => !es.isEmpty
  | Json.obj fs => !fs.isEmpty

/-- The field list of a JSON object (`\x7b\x7d` for any other value); used
where the code expands `**args`. -/
def objFields : Json → List (String × Json)
  | Json.obj fs => fs
  | _ => []

/-- Tool registry of `llama.py` (`self.tools`, lines 37-46), in insertion
order. -/
def llamaRegistry : List String := ["search_web", "take_screenshot"]

/-- Required (no-default) parameter names of each tool function, as computed
by `inspect.signature` in `safe_execute_tool`: `search_web(query)` and
`take_screenshot()` from tools.py. -/
def requiredParams : String → List String
  | "search_web" => ["query"]
  | _ => []

/-- `llama.py choose_tool` (lines 150-185), from the point where the backend
text is available.  `parse` is the outcome of `json.loads(content)` (`none` on
`JSONDecodeError`, in which case the fallback scans the lowercased raw text
for a registered tool name, in registry order, returning it with empty
arguments).  A parse result that is not a JSON object makes `parsed.get`
raise, which the outer `except` turns into `none`.  A missing, null, falsy or
unregistered tool name yields `none`; otherwise the invocation keeps the
parsed `arguments` value (defaulted to `\x7b\x7d` when absent or falsy). -/
def llamaChooseTool (parse : Option Json) (content : List Char) :
    Option (String × Json) :=
  match parse with
  | none =>
    let lowered := content.map Char.toLower
    if containsB ("search_web".toList) lowered then some ("search_web", Json.obj [])
    else if containsB ("take_screenshot".toList) lowered then
      some ("take_screenshot", Json.obj [])
    else none
  | some parsed =>
    match parsed with
    | Json.obj fields =>
      let tool := (pyDictGet fields "tool").getD Json.null
      let args0 := (pyDictGet fields "arguments").getD (Json.obj [])
      let args := if jsonTruthy args0 then args0 else Json.obj []
      match tool with
      | Json.str s => if s ≠ "" ∧ s ∈ llamaRegistry then some (s, args) else none
      | _ => none
    | _ => none

/-- `Guardian.py _select_tool` (lines 154-177), from the point where the
backend text is available: the stripped lowercased text must be exactly a
registry key; there is no JSON parsing and no substring fallback.  `none`
models both a backend failure and a non-matching response. -/
def guardianSelectTool (backend : Option (List Char)) : Option String :=
  match backend with
  | none => none
  | some content =>
    let tool := (stripWS content).map Char.toLower
    if tool = ("search_web".toList) then some "search_web"
    else if tool = ("take_screenshot".toList) then some "take_screenshot"
    else none

/-- The left brace character. -/
def lbrace : Char := Char.ofNat 123

/-- The right brace character. -/
def rbrace : Char := Char.ofNat 125

/-- The longest prefix of `s` ending at the last right brace of `s` (`none`
when `s` has no right brace): the greedy tail of a match of the regex
`\x7b.*\x7d` with `re.DOTALL`. -/
def upToLastClose : List Char → Option (List Char)
  | [] => none
  | c :: t =>
    match upToLastClose t with
    | some r => some (c :: r)
    | none => if c = rbrace then some [c] else none

/-- `re.search` of the pattern `\x7b.*\x7d` with `re.DOTALL`
(`safe_execute_tool`, line 220): leftmost match, greedy `.*`.  The match
starts at the first left brace followed by some right brace and extends to
the last right brace of the whole text. -/
def extractBracesSearch : List Char → Option (List Char)
  | [] => none
  | c :: t =>
    if c = lbrace then
      match upToLastClose t with
      | some r => some (c :: r)
      | none => extractBracesSearch t
    else extractBracesSearch t

/-- Brace-balanced scan below the first left brace: returns the prefix up to
the brace closing depth `d`, `none` if the text ends first.  Helper for
`firstBalancedBraces`. -/
def balancedFrom (d : Nat) : List Char → Option (List Char)
  | [] => none
  | c :: t =>
    if c = lbrace then (balancedFrom (d + 1) t).map (fun r => c :: r)
    else if c = rbrace then
      if d = 1 then some [c] else (balancedFrom (d - 1) t).map (fun r => c :: r)
    else (balancedFrom d t).map (fun r => c :: r)

/-- Modelled from the spec: "the first balanced brace-delimited substring" of
the raw response (spec section 4.3), which the source is claimed to extract.
Starts at the first left brace and ends at the brace that closes it. -/
def firstBalancedBraces : List Char → Option (List Char)
  | [] => none
  | c :: t =>
    if c = lbrace then (balancedFrom 1 t).map (fun r => c :: r)
    else firstBalancedBraces t

/-- Fuel-driven scan for `replAll`; with fuel at least the length of the
text this is Python `text.replace(old, "")`.  Each step either keeps one
character or skips one non-overlapping occurrence of `w`, spending one unit
of fuel. -/
def replAllGo (w : List Char) : Nat → List Char → List Char
  | _, [] => []
  | 0, s => s
  | Nat.succ f, c :: t =>
    if ¬w.isEmpty ∧ isPrefixB w (c :: t) = true then
      replAllGo w f ((c :: t).drop w.length)
    else c :: replAllGo w f t

/-- Python `text.replace(old, new)` with `new = ""`: non-overlapping
left-to-right occurrences of `old` deleted; `text.replace("", "")` is
`text`. -/
def replAll (w : List Char) (s : List Char) : List Char :=
  replAllGo w s.length s

/-- Outcome of the argument-fill stage of `safe_execute_tool`: the argument
dict afterwards, the number of extra backend calls issued, and the failure
sentence when the fill failed. -/
structure FillOutcome where
  args : List (String × Json)
  backendCalls : Nat
  failMsg : Option String
deriving Repr

/-- Python `dict.update` on association lists (replace in place, append new
keys in order). -/
def pyDictUpdate (xs : List (String × Json)) (new : List (String × Json)) :
    List (String × Json) :=
  new.foldl
    (fun acc kv =>
      if acc.any (fun kv2 => kv2.1 = kv.1) then
        acc.map (fun kv2 => if kv2.1 = kv.1 then (kv2.1, kv.2) else kv2)
      else acc ++ [kv])
    xs

/-- The argument-fill stage of `llama.py safe_execute_tool` (lines 187-235).
`missing` is computed from `inspect.signature`; when nothing is missing (or
no utterance is available) the arguments pass through with zero extra backend
calls.  Otherwise one backend call is issued (`fillResp = none` models it
raising); the stripped response goes through the brace regex, single quotes
are replaced by double quotes, and `parse` models `json.loads` on the
extracted part.  A non-object parse makes `args.update` raise, landing in the
`except` branch. -/
def resolveArgsFill (required : List String) (args : List (String × Json))
    (hasUserInput : Bool) (fillResp : Option (List Char))
    (parse : List Char → Option Json) : FillOutcome :=
  let missing := required.filter (fun p => ¬args.any (fun kv => kv.1 = p))
  if missing.isEmpty ∨ ¬hasUserInput then ⟨args, 0, none⟩
  else
    match fillResp with
    | none => ⟨args, 1, some "Tool invocation failed: bad arguments."⟩
    | some content =>
      match extractBracesSearch (stripWS content) with
      | none => ⟨args, 1, some "Tool invocation failed: missing arguments."⟩
      | some jp =>
        let jp2 := jp.map (fun c => if c = Char.ofNat 39 then Char.ofNat 34 else c)
        match parse jp2 with
        | some (Json.obj kvs) => ⟨pyDictUpdate args kvs, 1, none⟩
        | _ => ⟨args, 1, some "Tool invocation failed: bad arguments."⟩

/-- `llama.py safe_execute_tool` (lines 187-243) end to end: argument fill,
then execution.  `exec` models `func(**args)`: `none` when the call raises,
`some none` when it returns `None`, `some (some s)` when it returns the
string `s`.  A falsy result is replaced by the generic success sentence. -/
def llamaSafeExecuteTool (required : List String) (args : List (String × Json))
    (hasUserInput : Bool) (fillResp : Option (List Char))
    (parse : List Char → Option Json)
    (exec : List (String × Json) → Option (Option String)) : String :=
  let fo := resolveArgsFill required args hasUserInput fillResp parse
  match fo.failMsg with
  | some m => m
  | none =>
    match exec fo.args with
    | none => "Tool invocation failed: bad arguments."
    | some (some s) =>
      if s = "" then "Tool executed successfully but returned no output." else s
    | some none => "Tool executed successfully but returned no output."

/-- `llama.py process_query`, TOOL branch (lines 305-311): it passes the
chosen tool's function to `safe_execute_tool` — not to `execute_tool` — so
no vision-model call is ever made on this path.  Returns the user-visible
result string together with the number of vision-model calls issued. -/
def llamaProcessToolBranch (toolChoice : Option (String × Json))
    (fillResp : Option (List Char)) (parse : List Char → Option Json)
    (exec : List (String × Json) → Option (Option String)) : String × Nat :=
  match toolChoice with
  | none => ("I couldn't determine which tool to use.", 0)
  | some (name, argsJ) =>
    (llamaSafeExecuteTool (requiredParams name) (objFields argsJ) true
      fillResp parse exec, 0)

/-- What `take_screenshot` may hand back, per `execute_tool` (lines 259-267):
a file path, a readable stream, or a byte payload. -/
inductive ShotResult where
  | path (p : String)
  | stream (bytes : List Nat)
  | bytes (bytes : List Nat)
deriving Repr

/-- `llama.py execute_tool`, screenshot branch (lines 258-278): normalize the
tool result to raw bytes (`readFile` models `open(path, 'rb').read()`), issue
exactly one vision-model call (`vision`), and return its stripped text.
Returns the result string and the number of vision-model calls.  This
function exists in llama.py but is never called by `process_query`. -/
def llamaExecuteToolScreenshot (shot : ShotResult)
    (readFile : String → List Nat) (vision : List Nat → List Char) :
    String × Nat :=
  let fileBytes :=
    match shot with
    | ShotResult.path p => readFile p
    | ShotResult.stream bs => bs
    | ShotResult.bytes bs => bs
  (String.mk (stripWS (vision fileBytes)), 1)

/-- `Guardian.py _execute_tool` screenshot branch with `_describe_image`
(lines 205-235): a truthy result (the screenshot path) is opened and read
(`readFile = none` models `open` raising, caught inside `_describe_image`),
and one vision call produces the description.  Returns the result string and
the number of vision-model calls. -/
def guardianExecuteScreenshot (shotReturn : Option String)
    (readFile : String → Option (List Nat)) (vision : List Nat → List Char) :
    String × Nat :=
  match shotReturn with
  | none => ("Tool executed successfully.", 0)
  | some p =>
    if p = "" then ("Tool executed successfully.", 0)
    else
      match readFile p with
      | none => ("Couldn't describe the image.", 0)
      | some bytes => (String.mk (stripWS (vision bytes)), 1)

/-- Observable events of the main loop `run`: a call to `listen`, a spoken
text, or a command dispatched to a background processing thread. -/
inductive Ev where
  | listen
  | say (text : String)
  | dispatch (command : String)
deriving DecidableEq, Repr

/-- Variant-specific data of the main loop: wake word (lowercased), shutdown
keywords, whether the shutdown check lowercases the command again
(`command.lower()` in llama.py, plain `command` in Guardian.py), and the
farewell sentence. -/
structure LoopCfg where
  wake : List Char
  kws : List (List Char)
  lowerCheck : Bool
  farewell : String

/-- The shutdown test `any(w in command for w in kws)` (llama.py line 341,
Guardian.py line 305). -/
def shutdownHit (cfg : LoopCfg) (c : List Char) : Bool :=
  cfg.kws.any (fun w => containsB w (if cfg.lowerCheck then c.map Char.toLower else c))

/-- The main loop `run` (llama.py lines 329-349, Guardian.py lines 291-312),
driven by a script of `listen` outcomes (`none` = timeout / unrecognized
speech).  Produces the observable event trace; the trace ends either when the
script is exhausted (observation stops) or when the shutdown branch breaks
the loop, after which no further `listen` occurs. -/
def runLoop (cfg : LoopCfg) : List (Option (List Char)) → List Ev
  | [] => []
  | t :: rest =>
    Ev.listen ::
      (match t with
      | none => runLoop cfg rest
      | some text =>
        if containsB cfg.wake text then
          let command := stripWS (replAll cfg.wake text)
          if command.isEmpty then
            Ev.say "Yes?" ::
              (match rest with
              | [] => [Ev.listen]
              | t2 :: rest2 =>
                Ev.listen ::
                  (match t2 with
                  | none => runLoop cfg rest2
                  | some c2 =>
                    if c2.isEmpty then runLoop cfg rest2
                    else if shutdownHit cfg c2 then [Ev.say cfg.farewell]
                    else Ev.dispatch (String.mk c2) :: runLoop cfg rest2))
          else if shutdownHit cfg command then [Ev.say cfg.farewell]
          else Ev.dispatch (String.mk command) :: runLoop cfg rest
        else runLoop cfg rest)

/-- llama.py loop data: wake word "llama", keywords
`['exit', 'quit', 'goodbye', 'shut down']` (line 341; note the space inside
'shut down'), shutdown check on `command.lower()`. -/
def llamaCfg : LoopCfg :=
  ⟨"llama".toList,
    ["exit".toList, "quit".toList, "goodbye".toList, "shut down".toList],
    true, "Shutting down. Goodbye!"⟩

/-- Guardian.py loop data: wake word "guardian", keywords
`("exit", "quit", "goodbye", "shutdown")` (line 305), no re-lowering. -/
def guardianCfg : LoopCfg :=
  ⟨"guardian".toList,
    ["exit".toList, "quit".toList, "goodbye".toList, "shutdown".toList],
    false, "Goodbye!"⟩

/-! ## Theorems -/

/-- C1 counterexample: a backend text containing both keywords.  The source
checks `'TOOL' in content` before `'COMPLEX' in content`
(llama.py lines 140-143), so on "COMPLEX TOOL" — which contains both
keywords — `classify_user_input` returns TOOL, while the claimed tie-break
order COMPLEX > TOOL > SIMPLE demands COMPLEX. -/
theorem c1_counterexample :
    llamaClassify (some (("COMPLEX TOOL").toList)) = "TOOL" ∧
    containsB (("TOOL").toList) (stripUpper (("COMPLEX TOOL").toList)) = true ∧
    containsB (("COMPLEX").toList) (stripUpper (("COMPLEX TOOL").toList)) = true ∧
    ("TOOL" : String) ≠ "COMPLEX" := by
  refine ⟨by decide, by decide, by decide, by decide⟩

/-- C1 (amended): llama.py's `classify_user_input` classifies by
case-insensitive substring containment of the keywords in the stripped
uppercased backend text, with de facto tie-break order TOOL > COMPLEX >
SIMPLE and SIMPLE as the default; `Guardian.py classify` instead accepts
only an exact match of the stripped uppercased text against one of the three
keywords, with SIMPLE as the default. -/
theorem c1_amended :
    ∀ cs : List Char,
      (llamaClassify (some cs) = "TOOL" ↔
        containsB (("TOOL").toList) (stripUpper cs) = true) ∧
      (llamaClassify (some cs) = "COMPLEX" ↔
        (containsB (("TOOL").toList) (stripUpper cs) = false ∧
          containsB (("COMPLEX").toList) (stripUpper cs) = true)) ∧
      (llamaClassify (some cs) = "SIMPLE" ↔
        (containsB (("TOOL").toList) (stripUpper cs) = false ∧
          containsB (("COMPLEX").toList) (stripUpper cs) = false)) ∧
      (guardianClassify (some cs) = "TOOL" ↔ stripUpper cs = ("TOOL").toList) ∧
      (guardianClassify (some cs) = "COMPLEX" ↔
        stripUpper cs = ("COMPLEX").toList) := by
  intro cs
  refine ⟨?_, ?_, ?_, ?_, ?_⟩
  · cases hT : containsB (("TOOL").toList) (stripUpper cs) <;>
      cases hC : containsB (("COMPLEX").toList) (stripUpper cs) <;>
        simp only [llamaClassify, hT, hC] <;> simp [hT, hC]
  · cases hT : containsB (("TOOL").toList) (stripUpper cs) <;>
      cases hC : containsB (("COMPLEX").toList) (stripUpper cs) <;>
        simp only [llamaClassify, hT, hC] <;> simp [hT, hC]
  · cases hT : containsB (("TOOL").toList) (stripUpper cs) <;>
      cases hC : containsB (("COMPLEX").toList) (stripUpper cs) <;>
        simp only [llamaClassify, hT, hC] <;> simp [hT, hC]
  · by_cases h1 : stripUpper cs = ("TOOL").toList <;>
      by_cases h2 : stripUpper cs = ("SIMPLE").toList <;>
        by_cases h3 : stripUpper cs = ("COMPLEX").toList <;>
          simp_all [guardianClassify]
  · by_cases h1 : stripUpper cs = ("TOOL").toList <;>
      by_cases h2 : stripUpper cs = ("SIMPLE").toList <;>
        by_cases h3 : stripUpper cs = ("COMPLEX").toList <;>
          simp_all [guardianClassify]

/-- C2: on any backend failure (modelled by `none`, covering the `except`
branches of both sources) classification returns SIMPLE, and on every
possible backend outcome both classifiers return one of the three labels —
the embedding is total, so classification never raises. -/
theorem c2_theorem :
    llamaClassify none = "SIMPLE" ∧ guardianClassify none = "SIMPLE" ∧
    (∀ r : Option (List Char),
      llamaClassify r = "TOOL" ∨ llamaClassify r = "COMPLEX" ∨
        llamaClassify r = "SIMPLE") ∧
    (∀ r : Option (List Char),
      guardianClassify r = "TOOL" ∨ guardianClassify r = "COMPLEX" ∨
        guardianClassify r = "SIMPLE") := by
  refine ⟨rfl, rfl, ?_, ?_⟩
  · intro r
    cases r with
    | none => right; right; rfl
    | some cs =>
      simp only [llamaClassify]
      split
      · left; rfl
      · split
        · right; left; rfl
        · right; right; rfl
  · intro r
    cases r with
    | none => right; right; rfl
    | some cs =>
      simp only [guardianClassify]
      split
      · left; rfl
      · split
        · right; right; rfl
        · split
          · right; left; rfl
          · right; right; rfl

/-- Helper: `altFrom` over an append splits into the two parts, the second
starting on the turn determined by the parity of the first part's length. -/
theorem altFrom_append (l l2 : List Msg) (b : Bool) :
    altFrom b (l ++ l2)
      = (altFrom b l && altFrom (if l.length % 2 = 0 then b else !b) l2) := by
  induction l generalizing b with
  | nil => simp [altFrom]
  | cons m t ih =>
    simp only [List.cons_append, altFrom, List.length_cons, List.append_eq]
    rw [ih (!b)]
    rcases Nat.even_or_odd t.length with he | ho
    · have h0 : t.length % 2 = 0 := Nat.even_iff.mp he
      rw [if_pos h0, if_neg (by omega : ¬(t.length + 1) % 2 = 0)]
      simp [Bool.and_assoc]
    · have h0 : t.length % 2 = 1 := Nat.odd_iff.mp ho
      rw [if_neg (by omega : ¬t.length % 2 = 0),
        if_pos (by omega : (t.length + 1) % 2 = 0)]
      simp [Bool.and_assoc]

/-- C3 counterexample: one `get_response` call whose backend raises
(llama.py lines 288-299).  The `except` branch returns the apology but never
appends it, so History ends as a lone user message — no assistant message is
appended after the user message, contradicting the claim for failing
calls. -/
theorem c3_counterexample :
    (llamaGetResponse [] "hi" 10 none).history = [⟨"user", "hi"⟩] ∧
    ((llamaGetResponse [] "hi" 10 none).history.all
      (fun m => m.role ≠ "assistant")) = true ∧
    (llamaGetResponse [] "hi" 10 none).reply
      = "I encountered an error while fetching a response." := by
  refine ⟨rfl, by decide, rfl⟩

/-- C3 (amended): on a successful backend call, `get_response` / `chat`
append the user message and then the assistant reply, preserving the
user/assistant alternation invariant; on a backend failure only the user
message is appended — the synthesized apology is returned but not recorded,
so History is left ending in the user message. -/
theorem c3_amended :
    ∀ (hist : List Msg) (input : String) (M : Nat) (r : List Char),
      (llamaGetResponse hist input M (some r)).history
        = hist ++ [⟨"user", input⟩, ⟨"assistant", String.mk (stripWS r)⟩] ∧
      (llamaGetResponse hist input M none).history = hist ++ [⟨"user", input⟩] ∧
      (guardianChat hist input M (some r)).history
        = hist ++ [⟨"user", input⟩, ⟨"assistant", String.mk (stripWS r)⟩] ∧
      (guardianChat hist input M none).history = hist ++ [⟨"user", input⟩] ∧
      (isAltUA hist = true → hist.length % 2 = 0 →
        isAltUA ((llamaGetResponse hist input M (some r)).history) = true) := by
  intro hist input M r
  refine ⟨by simp [llamaGetResponse], rfl, by simp [guardianChat], rfl, ?_⟩
  intro halt hpar
  have hh : (llamaGetResponse hist input M (some r)).history
      = hist ++ [⟨"user", input⟩, ⟨"assistant", String.mk (stripWS r)⟩] := by
    simp [llamaGetResponse]
  rw [hh]
  unfold isAltUA
  rw [altFrom_append, hpar]
  simp only [if_pos rfl]
  rw [isAltUA] at halt
  rw [halt]
  simp [altFrom]

/-- C3 witness: the alternation branch of `c3_amended` at a concrete
successful call. -/
theorem c3_witness :
    isAltUA ((llamaGetResponse [] "hi" 10 (some (("ok").toList))).history)
      = true :=
  (c3_amended [] "hi" 10 (("ok").toList)).2.2.2.2 (by decide) (by decide)

/-- C4 counterexample: the first `get_response` call on an empty History with
the default `max_history = 10` submits a context of 1 message (the freshly
appended user message), not `min(2·1, 10) = 2` as the claim computes for the
exchange being appended; and with `max_history = 0` Python's slice
`history[-0:]` is the whole history, not `min(2N, 0) = 0` messages
(llama.py line 291). -/
theorem c4_counterexample :
    (llamaGetResponse [] "hi" 10 (some (("ok").toList))).submitted.length = 1 ∧
    (llamaGetResponse [] "hi" 10 (some (("ok").toList))).history.length = 2 ∧
    min 2 10 = 2 ∧ (1 : Nat) ≠ 2 ∧
    (llamaGetResponse [⟨"user", "a"⟩, ⟨"assistant", "b"⟩] "c" 0
      (some (("ok").toList))).submitted.length = 3 ∧
    min 2 0 = 0 := by
  refine ⟨by decide, by decide, by decide, by decide, by decide, by decide⟩

/-- C4 (amended): the context submitted to the backend is the Python slice
`history[-max_history:]` of the appended history (which, at call time,
includes the just-appended user message, hence has odd length); for
`max_history = M ≥ 1` the slice keeps the last `min(L, M)` messages of an
`L`-message history, it is always a contiguous suffix in original order
(oldest dropped first, never reordered), and for `M = 0` the whole history
is submitted. -/
theorem c4_amended :
    ∀ (hist : List Msg) (input : String) (M : Nat) (b : Option (List Char)),
      (llamaGetResponse hist input M b).submitted
        = pySliceLast (hist ++ [⟨"user", input⟩]) M ∧
      (llamaGetResponse hist input M b).submitted <:+ hist ++ [⟨"user", input⟩] ∧
      (1 ≤ M → (llamaGetResponse hist input M b).submitted.length
        = min (hist.length + 1) M) ∧
      (∀ l : List Msg, pySliceLast l 0 = l) ∧
      (1 ≤ M → ∀ l : List Msg, (pySliceLast l M).length = min l.length M) ∧
      (∀ l : List Msg, pySliceLast l M <:+ l) := by
  intro hist input M b
  have hsub : (llamaGetResponse hist input M b).submitted
      = pySliceLast (hist ++ [⟨"user", input⟩]) M := by
    cases b <;> rfl
  have hlen : ∀ l : List Msg, 1 ≤ M → (pySliceLast l M).length = min l.length M := by
    intro l hM
    unfold pySliceLast
    rw [if_neg (by omega)]
    rw [List.length_drop]
    omega
  have hsuf : ∀ l : List Msg, pySliceLast l M <:+ l := by
    intro l
    unfold pySliceLast
    split
    · exact List.suffix_refl l
    · exact List.drop_suffix _ l
  refine ⟨hsub, ?_, ?_, fun l => rfl, fun hM l => hlen l hM, hsuf⟩
  · rw [hsub]; exact hsuf _
  · intro hM
    rw [hsub, hlen _ hM]
    simp

/-- C4 witness: `c4_amended` at a concrete call with `max_history = 10`. -/
theorem c4_witness :
    (llamaGetResponse [] "hi" 10 none).submitted.length = min 1 10 :=
  ((c4_amended [] "hi" 10 none).2.2.1) (by omega)

/-- C5: the well-formed selector response
`\x7b"tool": "search_web", "arguments": \x7b"query": "cats"\x7d\x7d`, once
parsed, makes `choose_tool` return exactly the parsed invocation, and the
argument-fill stage of `safe_execute_tool` finds nothing missing
(`search_web` requires only `query`), returns the arguments unchanged and
issues zero extra backend calls. -/
theorem c5_theorem :
    llamaChooseTool
        (some (Json.obj [("tool", Json.str "search_web"),
          ("arguments", Json.obj [("query", Json.str "cats")])])) []
      = some ("search_web", Json.obj [("query", Json.str "cats")]) ∧
    (resolveArgsFill (requiredParams "search_web")
        [("query", Json.str "cats")] true none (fun _ => none)).args
      = [("query", Json.str "cats")] ∧
    (resolveArgsFill (requiredParams "search_web")
        [("query", Json.str "cats")] true none (fun _ => none)).backendCalls
      = 0 ∧
    (resolveArgsFill (requiredParams "search_web")
        [("query", Json.str "cats")] true none (fun _ => none)).failMsg
      = none := by
  refine ⟨rfl, rfl, rfl, rfl⟩

/-- C6: `choose_tool` (llama.py lines 150-185).  When `json.loads` fails
(`parse = none`) the fallback scans the lowercased raw text: any returned
tool is a registered name occurring as a case-insensitive substring and comes
with empty arguments, and if no registered name occurs the result is `none`;
when parsing succeeds the raw text is ignored entirely; and a missing, null
or unregistered tool name yields `none` (a normal outcome — the embedding is
total, so nothing raises). -/
theorem c6_theorem :
    ∀ content : List Char,
      (∀ nm args, llamaChooseTool none content = some (nm, args) →
        nm ∈ llamaRegistry ∧ args = Json.obj [] ∧
          containsB (nm.toList) (content.map Char.toLower) = true) ∧
      ((∀ nm, nm ∈ llamaRegistry →
          containsB (nm.toList) (content.map Char.toLower) = false) →
        llamaChooseTool none content = none) ∧
      (∀ p : Json, llamaChooseTool (some p) content = llamaChooseTool (some p) []) ∧
      (∀ fields, pyDictGet fields "tool" = none →
        llamaChooseTool (some (Json.obj fields)) content = none) ∧
      (∀ fields, pyDictGet fields "tool" = some Json.null →
        llamaChooseTool (some (Json.obj fields)) content = none) ∧
      (∀ fields s, pyDictGet fields "tool" = some (Json.str s) →
        s ∉ llamaRegistry →
        llamaChooseTool (some (Json.obj fields)) content = none) := by
  intro content
  refine ⟨?_, ?_, ?_, ?_, ?_, ?_⟩
  · intro nm args h
    simp only [llamaChooseTool] at h
    by_cases h1 : containsB (("search_web").toList) (content.map Char.toLower) = true
    · rw [if_pos h1] at h
      obtain ⟨rfl, rfl⟩ : nm = "search_web" ∧ args = Json.obj [] := by
        constructor <;> cases h <;> rfl
      exact ⟨by decide, rfl, h1⟩
    · rw [if_neg h1] at h
      by_cases h2 : containsB (("take_screenshot").toList) (content.map Char.toLower) = true
      · rw [if_pos h2] at h
        obtain ⟨rfl, rfl⟩ : nm = "take_screenshot" ∧ args = Json.obj [] := by
          constructor <;> cases h <;> rfl
        exact ⟨by decide, rfl, h2⟩
      · rw [if_neg h2] at h
        exact absurd h (by simp)
  · intro hnone
    have h1 := hnone "search_web" (by decide)
    have h2 := hnone "take_screenshot" (by decide)
    simp only [llamaChooseTool]
    rw [if_neg (by rw [h1]; exact Bool.false_ne_true),
      if_neg (by rw [h2]; exact Bool.false_ne_true)]
  · intro p
    cases p <;> rfl
  · intro fields h
    simp only [llamaChooseTool, h]
    rfl
  · intro fields h
    simp only [llamaChooseTool, h]
    rfl
  · intro fields s h hreg
    simp only [llamaChooseTool, h]
    simp only [Option.getD_some]
    rw [if_neg (by intro hc; exact hreg hc.2)]

/-- C6 witness: the null-tool branch of `c6_theorem` at a concrete parsed
response. -/
theorem c6_witness :
    llamaChooseTool (some (Json.obj [("tool", Json.null)])) (("x").toList)
      = none :=
  (c6_theorem (("x").toList)).2.2.2.2.1 [("tool", Json.null)] rfl

/-- C8: evaluation at the failing input.  When `process_query` routes a
TOOL-classified utterance to `take_screenshot` (llama.py lines 305-311), it
invokes `safe_execute_tool`, so the user-visible result is the tool's raw
return value — the screenshot file path "screenshot.png" from tools.py —
and zero vision-model calls happen.  The two-step capture-then-describe
pipeline exists in `execute_tool` (lines 258-278, never called by
`process_query`) and in Guardian's `_execute_tool`/`_describe_image`, both
of which do normalize to bytes and issue exactly one vision call whose text
is the result. -/
theorem c8_theorem :
    llamaProcessToolBranch (some ("take_screenshot", Json.obj [])) none
        (fun _ => none) (fun _ => some (some "screenshot.png"))
      = ("screenshot.png", 0) ∧
    llamaExecuteToolScreenshot (ShotResult.path "screenshot.png")
        (fun _ => [137, 80, 78, 71]) (fun _ => (" a desktop with a browser ").toList)
      = ("a desktop with a browser", 1) ∧
    guardianExecuteScreenshot (some "screenshot.png")
        (fun _ => some [137, 80, 78, 71])
        (fun _ => (" a desktop with a browser ").toList)
      = ("a desktop with a browser", 1) := by
  refine ⟨rfl, by decide, by decide⟩

/-- C9 counterexample: the claimed shutdown keyword "shutdown" is not one of
llama.py's keywords (line 341 has 'shut down', with a space), so the
recognized command "shutdown" is not treated as a shutdown request: no
farewell is spoken and the command is dispatched to a processing task.
Guardian.py (line 305) does use "shutdown" and terminates. -/
theorem c9_counterexample :
    runLoop llamaCfg [some (("llama shutdown").toList)]
      = [Ev.listen, Ev.dispatch "shutdown"] ∧
    containsB (("shutdown").toList) (("shutdown").toList) = true ∧
    runLoop guardianCfg [some (("guardian shutdown").toList)]
      = [Ev.listen, Ev.say "Goodbye!"] := by
  refine ⟨by decide, by decide, by decide⟩

/-- C9 (amended): for a recognized command containing one of the variant's
own shutdown keywords as a substring — exit/quit/goodbye/'shut down' (with a
space) for llama.py, exit/quit/goodbye/shutdown for Guardian.py — the
orchestrator speaks the farewell, dispatches nothing, and the loop
terminates: the trace ends at the farewell with no further listen, whatever
input remains. -/
theorem c9_amended :
    (∀ (text : List Char) (rest : List (Option (List Char))),
      containsB llamaCfg.wake text = true →
      (stripWS (replAll llamaCfg.wake text)).isEmpty = false →
      shutdownHit llamaCfg (stripWS (replAll llamaCfg.wake text)) = true →
      runLoop llamaCfg (some text :: rest)
        = [Ev.listen, Ev.say "Shutting down. Goodbye!"]) ∧
    (∀ (text : List Char) (rest : List (Option (List Char))),
      containsB guardianCfg.wake text = true →
      (stripWS (replAll guardianCfg.wake text)).isEmpty = false →
      shutdownHit guardianCfg (stripWS (replAll guardianCfg.wake text)) = true →
      runLoop guardianCfg (some text :: rest)
        = [Ev.listen, Ev.say "Goodbye!"]) := by
  constructor
  · intro text rest h1 h2 h3
    rw [runLoop.eq_def]
    simp only [h1, if_true, h2, h3, Bool.false_eq_true, if_false]
    rfl
  · intro text rest h1 h2 h3
    rw [runLoop.eq_def]
    simp only [h1, if_true, h2, h3, Bool.false_eq_true, if_false]
    rfl

/-- C9 witness: `c9_amended` at the concrete llama utterance
"llama goodbye". -/
theorem c9_witness :
    runLoop llamaCfg [some (("llama goodbye").toList)]
      = [Ev.listen, Ev.say "Shutting down. Goodbye!"] :=
  c9_amended.1 (("llama goodbye").toList) [] (by decide) (by decide) (by decide)

/-- C10 counterexample: deleting the non-overlapping occurrences of the wake
word can splice a new occurrence together.  On the transcription
"lllamalama", `"lllamalama".replace("llama", "").strip()` is "llama", so the
dispatched command contains the wake word as a substring; and a follow-up
command captured after the "Yes?" prompt is dispatched verbatim, wake word
and all (llama.py lines 331-347). -/
theorem c10_counterexample :
    runLoop llamaCfg [some (("lllamalama").toList)]
      = [Ev.listen, Ev.dispatch "llama"] ∧
    containsB llamaCfg.wake (("llama").toList) = true ∧
    runLoop llamaCfg [some (("llama").toList), some (("call llama now").toList)]
      = [Ev.listen, Ev.say "Yes?", Ev.listen, Ev.dispatch "call llama now"] ∧
    containsB llamaCfg.wake (("call llama now").toList) = true := by
  refine ⟨by decide, by decide, by decide, by decide⟩

/-- Helper: the replace-scan only ever deletes characters, for any fuel. -/
theorem replAllGo_sublist (w : List Char) :
    ∀ (f : Nat) (s : List Char), List.Sublist (replAllGo w f s) s := by
  intro f
  induction f with
  | zero =>
    intro s
    cases s with
    | nil => exact List.Sublist.refl _
    | cons c t => exact List.Sublist.refl _
  | succ f ih =>
    intro s
    cases s with
    | nil => exact List.Sublist.refl _
    | cons c t =>
      by_cases h : ¬w.isEmpty ∧ isPrefixB w (c :: t) = true
      · rw [replAllGo, if_pos h]
        exact (ih _).trans (List.drop_sublist _ _)
      · rw [replAllGo, if_neg h]
        exact (ih t).cons₂ c

/-- Helper: with no occurrence of `w` in `s`, the replace-scan is the
identity, for any fuel. -/
theorem replAllGo_of_not_contains (w : List Char) :
    ∀ (f : Nat) (s : List Char), containsB w s = false → replAllGo w f s = s := by
  intro f
  induction f with
  | zero =>
    intro s _
    cases s with
    | nil => rfl
    | cons c t => rfl
  | succ f ih =>
    intro s hc
    cases s with
    | nil => rfl
    | cons c t =>
      rw [containsB] at hc
      have hp : isPrefixB w (c :: t) = false := by
        cases hx : isPrefixB w (c :: t)
        · rfl
        · rw [hx] at hc; simp at hc
      have ht : containsB w t = false := by
        cases hx : containsB w t
        · rfl
        · rw [hx] at hc; simp at hc
      rw [replAllGo, if_neg (by simp [hp]), ih t ht]

/-- C10 (amended): `command = text.replace(wake_word, "").strip()` deletes
the non-overlapping occurrences of the wake word left to right — the result
is a subsequence of the utterance (no reordering, no insertion), and an
utterance without the wake word passes through unchanged — and on the main
path the dispatched command is exactly this replaced-and-stripped text.  The
deletions may splice together a new occurrence of the wake word, so the
dispatched command is not guaranteed to be free of it, and a follow-up
command captured after the "Yes?" prompt is dispatched without any wake-word
removal. -/
theorem c10_amended :
    (∀ w s : List Char, List.Sublist (replAll w s) s) ∧
    (∀ w s : List Char, containsB w s = false → replAll w s = s) ∧
    (∀ (text : List Char) (rest : List (Option (List Char))),
      containsB llamaCfg.wake text = true →
      (stripWS (replAll llamaCfg.wake text)).isEmpty = false →
      shutdownHit llamaCfg (stripWS (replAll llamaCfg.wake text)) = false →
      runLoop llamaCfg (some text :: rest)
        = Ev.listen ::
            Ev.dispatch (String.mk (stripWS (replAll llamaCfg.wake text)))
            :: runLoop llamaCfg rest) := by
  refine ⟨fun w s => replAllGo_sublist w s.length s,
    fun w s h => replAllGo_of_not_contains w s.length s h, ?_⟩
  intro text rest h1 h2 h3
  rw [runLoop.eq_def]
  simp only [h1, if_true, h2, h3, Bool.false_eq_true, if_false]

/-- C10 witness: `c10_amended` at the concrete utterance "llama hello". -/
theorem c10_witness :
    runLoop llamaCfg [some (("llama hello").toList)]
      = [Ev.listen, Ev.dispatch "hello"] := by
  have h := c10_amended.2.2 (("llama hello").toList) []
    (by decide) (by decide) (by decide)
  exact h.trans (by decide)

/-- Helper: the balanced scan returns a prefix of its input. -/
theorem balancedFrom_front :
    ∀ (t : List Char) (d : Nat) (b : List Char),
      balancedFrom d t = some b → b <+: t := by
  intro t
  induction t with
  | nil => intro d b h; simp [balancedFrom] at h
  | cons c t2 ih =>
    intro d b h
    rw [balancedFrom] at h
    by_cases h1 : c = lbrace
    · rw [if_pos h1] at h
      obtain ⟨b2, hb2, rfl⟩ := Option.map_eq_some'.mp h
      exact List.cons_prefix_cons.mpr ⟨rfl, ih _ _ hb2⟩
    · rw [if_neg h1] at h
      by_cases h2 : c = rbrace
      · rw [if_pos h2] at h
        by_cases h3 : d = 1
        · rw [if_pos h3] at h
          cases h
          exact List.cons_prefix_cons.mpr ⟨rfl, List.nil_prefix⟩
        · rw [if_neg h3] at h
          obtain ⟨b2, hb2, rfl⟩ := Option.map_eq_some'.mp h
          exact List.cons_prefix_cons.mpr ⟨rfl, ih _ _ hb2⟩
      · rw [if_neg h2] at h
        obtain ⟨b2, hb2, rfl⟩ := Option.map_eq_some'.mp h
        exact List.cons_prefix_cons.mpr ⟨rfl, ih _ _ hb2⟩

/-- Helper: the balanced scan's result ends in a right brace. -/
theorem balancedFrom_ends_close :
    ∀ (t : List Char) (d : Nat) (b : List Char),
      balancedFrom d t = some b → ∃ b0, b = b0 ++ [rbrace] := by
  intro t
  induction t with
  | nil => intro d b h; simp [balancedFrom] at h
  | cons c t2 ih =>
    intro d b h
    rw [balancedFrom] at h
    by_cases h1 : c = lbrace
    · rw [if_pos h1] at h
      obtain ⟨b2, hb2, rfl⟩ := Option.map_eq_some'.mp h
      obtain ⟨b0, rfl⟩ := ih _ _ hb2
      exact ⟨c :: b0, rfl⟩
    · rw [if_neg h1] at h
      by_cases h2 : c = rbrace
      · rw [if_pos h2] at h
        by_cases h3 : d = 1
        · rw [if_pos h3] at h
          cases h
          exact ⟨[], by rw [h2]; rfl⟩
        · rw [if_neg h3] at h
          obtain ⟨b2, hb2, rfl⟩ := Option.map_eq_some'.mp h
          obtain ⟨b0, rfl⟩ := ih _ _ hb2
          exact ⟨c :: b0, rfl⟩
      · rw [if_neg h2] at h
        obtain ⟨b2, hb2, rfl⟩ := Option.map_eq_some'.mp h
        obtain ⟨b0, rfl⟩ := ih _ _ hb2
        exact ⟨c :: b0, rfl⟩

/-- Helper: the greedy tail returns a prefix of its input. -/
theorem upToLastClose_front :
    ∀ (t r : List Char), upToLastClose t = some r → r <+: t := by
  intro t
  induction t with
  | nil => intro r h; simp [upToLastClose] at h
  | cons c t2 ih =>
    intro r h
    rw [upToLastClose] at h
    cases hrec : upToLastClose t2 with
    | some r2 =>
      rw [hrec] at h
      cases h
      exact List.cons_prefix_cons.mpr ⟨rfl, ih _ hrec⟩
    | none =>
      rw [hrec] at h
      by_cases h2 : c = rbrace
      · rw [if_pos h2] at h
        cases h
        exact List.cons_prefix_cons.mpr ⟨rfl, List.nil_prefix⟩
      · rw [if_neg h2] at h
        cases h

/-- Helper: a right brace in the text means the greedy tail exists. -/
theorem upToLastClose_isSome_of_mem :
    ∀ t : List Char, rbrace ∈ t → (upToLastClose t).isSome = true := by
  intro t
  induction t with
  | nil => intro h; cases h
  | cons c t2 ih =>
    intro h
    rw [upToLastClose]
    cases hrec : upToLastClose t2 with
    | some r2 => rfl
    | none =>
      have hc : c = rbrace := by
        cases List.mem_cons.mp h with
        | inl h1 => exact h1.symm
        | inr h2 =>
          have := ih h2
          rw [hrec] at this
          cases this
      rw [if_pos hc]
      rfl

/-- Helper: the greedy tail ends at the last right brace — no longer prefix
of the text ends in a right brace. -/
theorem upToLastClose_maximal :
    ∀ (t r : List Char), upToLastClose t = some r →
      ∀ (p p0 : List Char), p <+: t → p = p0 ++ [rbrace] →
        p.length ≤ r.length := by
  intro t
  induction t with
  | nil => intro r h; simp [upToLastClose] at h
  | cons c t2 ih =>
    intro r h p p0 hp hpe
    have hpne : p ≠ [] := by
      rw [hpe]; simp
    obtain ⟨p2, rfl⟩ : ∃ p2, p = c :: p2 := by
      cases p with
      | nil => exact absurd rfl hpne
      | cons x p2 =>
        obtain ⟨hx, _⟩ := List.cons_prefix_cons.mp hp
        exact ⟨p2, by rw [hx]⟩
    have hp2 : p2 <+: t2 := (List.cons_prefix_cons.mp hp).2
    rw [upToLastClose] at h
    cases hrec : upToLastClose t2 with
    | some r2 =>
      rw [hrec] at h
      cases h
      by_cases hp2e : p2 = []
      · subst hp2e
        simp
      · obtain ⟨p0t, hp0t⟩ : ∃ p0t, p2 = p0t ++ [rbrace] := by
          cases p0 with
          | nil =>
            exfalso
            apply hp2e
            have : c :: p2 = [rbrace] := hpe
            exact (List.cons_eq_cons.mp this).2
          | cons y p0t =>
            have : c :: p2 = y :: (p0t ++ [rbrace]) := hpe
            exact ⟨p0t, (List.cons_eq_cons.mp this).2⟩
        have := ih r2 hrec p2 p0t hp2 hp0t
        simpa using this
    | none =>
      rw [hrec] at h
      by_cases h2 : c = rbrace
      · rw [if_pos h2] at h
        cases h
        by_cases hp2e : p2 = []
        · subst hp2e; simp
        · exfalso
          obtain ⟨p0t, hp0t⟩ : ∃ p0t, p2 = p0t ++ [rbrace] := by
            cases p0 with
            | nil =>
              exfalso
              apply hp2e
              have : c :: p2 = [rbrace] := hpe
              exact (List.cons_eq_cons.mp this).2
            | cons y p0t =>
              have : c :: p2 = y :: (p0t ++ [rbrace]) := hpe
              exact ⟨p0t, (List.cons_eq_cons.mp this).2⟩
          have hmem : rbrace ∈ p2 := by
            rw [hp0t]; simp
          have hmem2 : rbrace ∈ t2 := hp2.subset hmem
          have := upToLastClose_isSome_of_mem t2 hmem2
          rw [hrec] at this
          cases this
      · rw [if_neg h2] at h
        cases h

/-- C7 counterexample: a fill response holding two JSON objects.  The regex
`\x7b.*\x7d` with `re.DOTALL` (llama.py line 220) is greedy: it matches from
the first left brace to the LAST right brace, spanning both objects and the
prose between them, which is not the first balanced brace-delimited
substring the claim describes (and is not itself balanced JSON). -/
theorem c7_counterexample :
    extractBracesSearch (("p \x7ba\x7d q \x7bb\x7d r").toList)
      = some (("\x7ba\x7d q \x7bb\x7d").toList) ∧
    firstBalancedBraces (("p \x7ba\x7d q \x7bb\x7d r").toList)
      = some (("\x7ba\x7d").toList) ∧
    (("\x7ba\x7d q \x7bb\x7d").toList) ≠ (("\x7ba\x7d").toList) := by
  refine ⟨by decide, by decide, by decide⟩

/-- C7 (amended): the resolver extracts the substring of the raw response
from the first left brace through the last right brace (greedy, dot matching
newlines) and parses that substring rather than the full text; the first
balanced brace-delimited substring is always a prefix of this extraction
(so the two coincide exactly when no right brace follows the close of the
first balanced object). -/
theorem c7_amended :
    ∀ (s b : List Char), firstBalancedBraces s = some b →
      (extractBracesSearch s).isSome = true ∧
      b <+: (extractBracesSearch s).getD [] := by
  intro s
  induction s with
  | nil => intro b h; simp [firstBalancedBraces] at h
  | cons c t ih =>
    intro b h
    by_cases hc : c = lbrace
    · rw [firstBalancedBraces, if_pos hc] at h
      obtain ⟨b2, hb2, rfl⟩ := Option.map_eq_some'.mp h
      obtain ⟨b0, hb0⟩ := balancedFrom_ends_close t 1 b2 hb2
      have hbp : b2 <+: t := balancedFrom_front t 1 b2 hb2
      have hmem : rbrace ∈ t := hbp.subset (by rw [hb0]; simp)
      obtain ⟨r, hr⟩ := Option.isSome_iff_exists.mp
        (upToLastClose_isSome_of_mem t hmem)
      have hext : extractBracesSearch (c :: t) = some (c :: r) := by
        rw [extractBracesSearch, if_pos hc, hr]
      refine ⟨by rw [hext]; rfl, ?_⟩
      rw [hext]
      simp only [Option.getD_some]
      refine List.cons_prefix_cons.mpr ⟨rfl, ?_⟩
      have hrp : r <+: t := upToLastClose_front t r hr
      have hlen : b2.length ≤ r.length :=
        upToLastClose_maximal t r hr b2 b0 hbp hb0
      exact List.prefix_of_prefix_length_le hbp hrp hlen
    · rw [firstBalancedBraces, if_neg hc] at h
      have hext : extractBracesSearch (c :: t) = extractBracesSearch t := by
        rw [extractBracesSearch, if_neg hc]
      rw [hext]
      exact ih b h

/-- C7 witness: `c7_amended` at a concrete response with trailing prose
after the object. -/
theorem c7_witness :
    (extractBracesSearch (("x\x7by\x7dz\x7d").toList)).isSome = true ∧
    (("\x7by\x7d").toList)
      <+: (extractBracesSearch (("x\x7by\x7dz\x7d").toList)).getD [] :=
  c7_amended (("x\x7by\x7dz\x7d").toList) (("\x7by\x7d").toList) (by decide)

end LlamaAgent
